import Mathlib

/-!
Verification of the plant-identifier component (src/src/PlantIdentifier.jsx).

The development shallowly embeds the pieces of the component that the
specification talks about:

* the response cleaning step (lines 136-139 of the source): a JS `trim`,
  a global replacement of the regex "three backticks followed by json and an
  optional newline", a global replacement of "three backticks and an optional
  newline", and a final `trim`; modelled on `List Char` by `repl1`, `repl2`,
  `jsTrim` and `cleanResp`.  JS global regex replacement scans the original
  string left to right, non-overlapping, and never rescans produced text,
  which is exactly what the recursions below do.
* the decoded payload check (lines 152-161): `parsePayload` mirrors the
  truthiness test on `plantData.error` and the
  `!plantData.name || !plantData.scientificName` test (JS string truthiness:
  absent and empty strings are falsy).
* the view-controller state (lines 5-9) and the `identifyPlant` /
  `resetUpload` operations (lines 45-176), modelled as pure transitions on
  `ViewState`.  The external world (file encoding, HTTP response, the JSON
  decoder) is an oracle record `UpstreamEnv`; `JSON.parse` itself is an
  opaque oracle function `decode`, applied to the cleaned completion text.
* the rendering guards for the optional fields (lines 307 and 379):
  `showConfidence` and `showSafetyNote`.

Machine strings are Lean `String`s; completion text is `List Char` so the
character-level cleaning can be reasoned about.  The JS whitespace class is
modelled by the four characters that can actually occur around completions
(space, newline, tab, carriage return); no argument below depends on the
exact extent of the class beyond the fact that it contains the newline and
does not contain the backtick or any character of the word json.
-/

/-- The backtick character (code 96), kept out of literals. -/
def bq : Char := Char.ofNat 96

/-- The pattern of the first global replacement: three backticks then json. -/
def fenceJ : List Char := [bq, bq, bq, 'j', 's', 'o', 'n']

/-- The pattern of the second global replacement: three backticks. -/
def bq3 : List Char := [bq, bq, bq]

/-- Newline followed by a closing fence, the suffix added by wrapping. -/
def nlBq3 : List Char := '\n' :: bq3

/-- Whitespace test used by the model of the JS trim. -/
def isWs (c : Char) : Bool := c == ' ' || c == '\n' || c == '\t' || c == '\r'

/-- Drop one leading newline if present: the optional newline of the regexes. -/
def dropNl (l : List Char) : List Char :=
  match l with
  | [] => []
  | c :: r => if c = '\n' then r else c :: r

/-- Global replacement of the json code-fence marker by the empty string,
scanning left to right as the JS regex engine does. -/
def repl1 (l : List Char) : List Char :=
  if h : l.take 7 = fenceJ then repl1 (dropNl (l.drop 7))
  else
    match l with
    | [] => []
    | c :: cs => c :: repl1 cs
termination_by l.length
decreasing_by
  · have h7 : 7 ≤ l.length := by
      have hlen := congrArg List.length h
      simp [fenceJ] at hlen
      omega
    have hd : (dropNl (l.drop 7)).length ≤ (l.drop 7).length := by
      cases l.drop 7 with
      | nil => simp [dropNl]
      | cons a r => simp [dropNl]; split <;> simp
    simp at hd ⊢
    omega
  · simp

/-- Global replacement of the plain code-fence marker by the empty string. -/
def repl2 (l : List Char) : List Char :=
  if h : l.take 3 = bq3 then repl2 (dropNl (l.drop 3))
  else
    match l with
    | [] => []
    | c :: cs => c :: repl2 cs
termination_by l.length
decreasing_by
  · have h3 : 3 ≤ l.length := by
      have hlen := congrArg List.length h
      simp [bq3] at hlen
      omega
    have hd : (dropNl (l.drop 3)).length ≤ (l.drop 3).length := by
      cases l.drop 3 with
      | nil => simp [dropNl]
      | cons a r => simp [dropNl]; split <;> simp
    simp at hd ⊢
    omega
  · simp

/-- Left trim: drop leading whitespace. -/
def trimL (l : List Char) : List Char := l.dropWhile isWs

/-- Right trim: drop trailing whitespace. -/
def trimR (l : List Char) : List Char := (l.reverse.dropWhile isWs).reverse

/-- The JS String.trim of the source, both ends. -/
def jsTrim (l : List Char) : List Char := trimR (trimL l)

/-- The full cleaning pipeline of lines 136-139: trim, strip the json fence
markers, strip the plain fence markers, trim again. -/
def cleanResp (l : List Char) : List Char := jsTrim (repl2 (repl1 (jsTrim l)))

/-- Wrapping a completion in code-fence markers, as in the spec boundary
case: three backticks, json, a newline, the text, a newline, three backticks. -/
def wrapFence (t : List Char) : List Char := fenceJ ++ '\n' :: (t ++ nlBq3)

/-- Care sub-record of an identification result (all strings in the source's
expected JSON shape). -/
structure Care where
  light : String
  water : String
  humidity : String
  temperature : String
  soil : String

deriving instance DecidableEq for Care

/-- A decoded completion payload: the loosely-structured object produced by
JSON.parse.  Every field the component ever looks at is optional, `none`
standing for a JS absent / undefined (or null) field. -/
structure Payload where
  error : Option String
  name : Option String
  scientificName : Option String
  commonNames : Option (List String)
  family : Option String
  description : Option String
  care : Option Care
  growthRate : Option String
  toxicity : Option String
  confidence : Option Nat

deriving instance DecidableEq for Payload

/-- JS truthiness of a possibly-absent string: absent and empty are falsy. -/
def strTruthy : Option String → Bool
  | none => false
  | some s => !(s == "")

/-- JS truthiness of a possibly-absent number: absent and zero are falsy. -/
def natTruthy : Option Nat → Bool
  | none => false
  | some n => !(n == 0)

/-- Outcome of the decoded-payload checks of lines 152-161. -/
inductive ParseOutcome where
  | domainError (msg : String)
  | incompleteData
  | ok (p : Payload)

deriving instance DecidableEq for ParseOutcome

/-- Lines 152-161 of the source: a truthy `error` field is surfaced directly
as a domain error; otherwise a falsy `name` or a falsy `scientificName`
makes the attempt fail with incomplete data; otherwise the payload is the
result. -/
def parsePayload (p : Payload) : ParseOutcome :=
  if strTruthy p.error then ParseOutcome.domainError (p.error.getD "")
  else if !strTruthy p.name || !strTruthy p.scientificName then ParseOutcome.incompleteData
  else ParseOutcome.ok p

/-- Outcome of handling a whole (non-empty) completion text. -/
inductive CompletionOutcome where
  | malformed
  | domainError (msg : String)
  | incompleteData
  | ok (p : Payload)

deriving instance DecidableEq for CompletionOutcome

/-- Clean the completion text, decode it with the JSON oracle, and run the
payload checks; a failing decode is the malformed-response error of line 149. -/
def parseCompletion (decode : List Char → Option Payload) (t : List Char) :
    CompletionOutcome :=
  match decode (cleanResp t) with
  | none => CompletionOutcome.malformed
  | some p =>
    match parsePayload p with
    | ParseOutcome.domainError m => CompletionOutcome.domainError m
    | ParseOutcome.incompleteData => CompletionOutcome.incompleteData
    | ParseOutcome.ok q => CompletionOutcome.ok q

/-- The five state fields of the component (source lines 5-9). -/
structure ViewState where
  selectedImage : Option String
  imagePreview : Option String
  plantInfo : Option Payload
  loading : Bool
  error : Option String

deriving instance DecidableEq for ViewState

/-- The initial state: nothing selected, nothing held, not loading. -/
def initState : ViewState := ⟨none, none, none, false, none⟩

/-- The external world of one identification attempt: the outcome of the
file encoding, the HTTP response envelope, the extracted completion text,
and the JSON.parse oracle. -/
structure UpstreamEnv where
  encodeError : Option String
  responseOk : Bool
  responseStatus : Nat
  upstreamErrMsg : Option String
  completionText : Option (List Char)
  decode : List Char → Option Payload

/-- Line 50 of the source: the credential is missing when absent or empty. -/
def keyMissing : Option String → Bool
  | none => true
  | some s => s == ""

/-- The configuration error message thrown at line 51. -/
def configMsg : String :=
  "Gemini API key is not configured. Please add REACT_APP_GEMINI_API_KEY to your .env file"

/-- The catch block of line 165 turns every thrown message into this. -/
def failMsg (m : String) : String := "Failed to identify plant: " ++ m

/-- The fallback of line 121 for the upstream-supplied message (JS or-else
on a falsy message). -/
def upstreamDetail : Option String → String
  | none => "Unknown error"
  | some s => if s == "" then "Unknown error" else s

/-- The upstream error message of line 121, carrying the status code. -/
def upstreamFailMsg (status : Nat) (m : Option String) : String :=
  "API request failed with status " ++ toString status ++ ": " ++ upstreamDetail m

/-- The malformed-response message of line 149. -/
def parseFailMsg : String :=
  "Failed to parse API response. The response may not be valid JSON."

/-- The empty-response message of line 131. -/
def emptyRespMsg : String := "No response from Gemini API"

/-- The incomplete-data message of line 158. -/
def incompleteMsg : String := "Incomplete plant data received from API"

/-- The domain-error message the prompt instructs the model to use. -/
def cannotIdentifyMsg : String :=
  "Could not identify plant. Please upload a clearer image of a plant."

/-- A failed attempt: the caught message, prefixed, with loading cleared
(the catch and finally blocks of lines 162-168). -/
def setFailed (s : ViewState) (m : String) : ViewState :=
  { s with error := some (failMsg m), loading := false }

/-- The first two setters of identifyPlant (lines 46-47). -/
def startIdentify (s : ViewState) : ViewState := { s with loading := true, error := none }

/-- The rest of identifyPlant (lines 49-168), applied to the state after
`startIdentify`: credential check, encoding, HTTP status check, empty
completion check, cleaning and decoding, payload checks.  The domain-error
branch (line 153) stores the payload's message verbatim, without the
failure envelope. -/
def settleIdentify (k : Option String) (env : UpstreamEnv) (s : ViewState) : ViewState :=
  if keyMissing k then setFailed s configMsg
  else
    match env.encodeError with
    | some m => setFailed s m
    | none =>
      if !env.responseOk then
        setFailed s (upstreamFailMsg env.responseStatus env.upstreamErrMsg)
      else
        match env.completionText with
        | none => setFailed s emptyRespMsg
        | some txt =>
          if txt.isEmpty then setFailed s emptyRespMsg
          else
            match parseCompletion env.decode txt with
            | CompletionOutcome.malformed => setFailed s parseFailMsg
            | CompletionOutcome.domainError m => { s with error := some m, loading := false }
            | CompletionOutcome.incompleteData => setFailed s incompleteMsg
            | CompletionOutcome.ok p => { s with plantInfo := some p, loading := false }

/-- The single outbound network call happens exactly when the credential
check passed and the encoding succeeded (the fetch of line 108). -/
def networkCalled (k : Option String) (env : UpstreamEnv) : Bool :=
  !keyMissing k && env.encodeError.isNone

/-- One whole identification attempt: resulting state and whether the
network was reached. -/
def runIdentify (k : Option String) (env : UpstreamEnv) (s : ViewState) :
    ViewState × Bool :=
  (settleIdentify k env (startIdentify s), networkCalled k env)

/-- The synchronous part of handleImageUpload (lines 25-27): record the
selection and discard the previous outcome.  The preview arrives later. -/
def selectImage (img : String) (s : ViewState) : ViewState :=
  { s with selectedImage := some img, plantInfo := none, error := none }

/-- resetUpload (lines 171-176): clear the selection, the preview, the
result and the error.  The loading flag is not touched by the source. -/
def resetUpload (s : ViewState) : ViewState :=
  { s with selectedImage := none, imagePreview := none, plantInfo := none, error := none }

/-- One in-flight identification attempt: the credential it was started
with and the external world it will observe.  The branch a settling attempt
takes depends only on these; the setters it finally runs apply to whatever
state is current at that moment. -/
abbrev Attempt : Type := Option String × UpstreamEnv

/-- The configurations the component can reach by sequences of user-visible
operations, pairing the view state with the list of attempts still in
flight: the initial configuration, reset, the asynchronous preview arrival,
starting an attempt on file selection, starting a retry from a displayed
error (the retry button renders only when not loading and an error is
held), and the settling of ANY in-flight attempt.  The source neither
cancels a superseded attempt nor guards against its late completion (the
spec's own open question), so a stale attempt may settle after a newer one
already has. -/
inductive ReachConfig : ViewState → List Attempt → Prop where
  | init : ReachConfig initState []
  | reset {s : ViewState} {ps : List Attempt} :
      ReachConfig s ps → ReachConfig (resetUpload s) ps
  | previewLoaded {s : ViewState} {ps : List Attempt} (pv : String) :
      ReachConfig s ps → ReachConfig { s with imagePreview := some pv } ps
  | selectStart {s : ViewState} {ps : List Attempt}
      (img : String) (k : Option String) (env : UpstreamEnv) :
      ReachConfig s ps → ReachConfig (startIdentify (selectImage img s)) ((k, env) :: ps)
  | retryStart {s : ViewState} {ps : List Attempt}
      (k : Option String) (env : UpstreamEnv) :
      ReachConfig s ps → s.loading = false → s.error ≠ none →
      ReachConfig (startIdentify s) ((k, env) :: ps)
  | settle {s : ViewState} (ps₁ ps₂ : List Attempt)
      (k : Option String) (env : UpstreamEnv) :
      ReachConfig s (ps₁ ++ (k, env) :: ps₂) →
      ReachConfig (settleIdentify k env s) (ps₁ ++ ps₂)

/-- A view state is reachable when some configuration holding it is. -/
def Reachable (s : ViewState) : Prop := ∃ ps : List Attempt, ReachConfig s ps

/-- The states reachable under the serialized regime the spec describes
(one attempt in flight at a time, each settling before the next operation):
every attempt settles immediately from the very state in which it started.
Mid-attempt (loading) states are reachable points of their own. -/
inductive ReachableSerial : ViewState → Prop where
  | init : ReachableSerial initState
  | reset {s : ViewState} : ReachableSerial s → ReachableSerial (resetUpload s)
  | previewLoaded {s : ViewState} (pv : String) :
      ReachableSerial s → ReachableSerial { s with imagePreview := some pv }
  | selectMid {s : ViewState} (img : String) :
      ReachableSerial s → ReachableSerial (startIdentify (selectImage img s))
  | selectSettled {s : ViewState} (img : String) (k : Option String) (env : UpstreamEnv) :
      ReachableSerial s →
      ReachableSerial (settleIdentify k env (startIdentify (selectImage img s)))
  | retryMid {s : ViewState} :
      ReachableSerial s → s.loading = false → s.error ≠ none →
      ReachableSerial (startIdentify s)
  | retrySettled {s : ViewState} (k : Option String) (env : UpstreamEnv) :
      ReachableSerial s → s.loading = false → s.error ≠ none →
      ReachableSerial (settleIdentify k env (startIdentify s))

/-- Mutual exclusion of the three held outcomes: a loading state holds
neither an error nor a result, and an error excludes a result. -/
def MutexInv (s : ViewState) : Prop :=
  (s.loading = true → s.error = none ∧ s.plantInfo = none) ∧
  (s.error ≠ none → s.plantInfo = none)

/-- Line 307: the confidence indicator renders only on a truthy confidence. -/
def showConfidence (p : Payload) : Bool := natTruthy p.confidence

/-- Line 379: the safety note renders only on a truthy toxicity. -/
def showSafetyNote (p : Payload) : Bool := strTruthy p.toxicity

theorem dropNl_nil : dropNl [] = [] := rfl

theorem dropNl_cons_nl (r : List Char) : dropNl ('\n' :: r) = r := by
  simp [dropNl]

theorem dropNl_cons_of_ne {c : Char} (r : List Char) (h : c ≠ '\n') :
    dropNl (c :: r) = c :: r := by
  simp [dropNl, h]

theorem repl1_pos (l : List Char) (h : l.take 7 = fenceJ) :
    repl1 l = repl1 (dropNl (l.drop 7)) := by
  rw [repl1]
  simp [h]

theorem repl1_neg (l : List Char) (h : ¬(l.take 7 = fenceJ)) :
    repl1 l = match l with | [] => [] | c :: cs => c :: repl1 cs := by
  rw [repl1]
  simp [h]

theorem repl1_nil : repl1 [] = [] := by
  rw [repl1_neg]
  decide

theorem repl1_cons_neg (c : Char) (cs : List Char) (h : ¬((c :: cs).take 7 = fenceJ)) :
    repl1 (c :: cs) = c :: repl1 cs := by
  rw [repl1_neg _ h]

theorem repl2_pos (l : List Char) (h : l.take 3 = bq3) :
    repl2 l = repl2 (dropNl (l.drop 3)) := by
  rw [repl2]
  simp [h]

theorem repl2_neg (l : List Char) (h : ¬(l.take 3 = bq3)) :
    repl2 l = match l with | [] => [] | c :: cs => c :: repl2 cs := by
  rw [repl2]
  simp [h]

theorem repl2_nil : repl2 [] = [] := by
  rw [repl2_neg]
  decide

theorem repl2_cons_neg (c : Char) (cs : List Char) (h : ¬((c :: cs).take 3 = bq3)) :
    repl2 (c :: cs) = c :: repl2 cs := by
  rw [repl2_neg _ h]

theorem fenceJ_length : fenceJ.length = 7 := rfl

theorem bq3_length : bq3.length = 3 := rfl

theorem repl1_append_fenceJ (r : List Char) :
    repl1 (fenceJ ++ r) = repl1 (dropNl r) := by
  rw [repl1_pos]
  · rw [show (7 : Nat) = fenceJ.length from rfl, List.drop_left]
  · rw [show (7 : Nat) = fenceJ.length from rfl, List.take_left]

theorem repl2_append_bq3head (r : List Char) :
    repl2 (bq3 ++ r) = repl2 (dropNl r) := by
  rw [repl2_pos]
  · rw [show (3 : Nat) = bq3.length from rfl, List.drop_left]
  · rw [show (3 : Nat) = bq3.length from rfl, List.take_left]

theorem take_append_of_le_len {α : Type} (n : Nat) (l₁ l₂ : List α) (h : n ≤ l₁.length) :
    (l₁ ++ l₂).take n = l₁.take n := by
  induction n generalizing l₁ with
  | zero => simp
  | succ m ih =>
    cases l₁ with
    | nil => simp at h
    | cons a as =>
      simp only [List.cons_append, List.take_succ_cons]
      rw [ih as (by simp at h; omega)]

theorem isWs_bq : isWs bq = false := by decide

/-- A fence-json match cannot begin fewer than seven characters before a
whitespace character: no character of the pattern is whitespace. -/
theorem take7_ne_fenceJ_of_ws (u : List Char) (c : Char) (w : List Char)
    (hu : u.length < 7) (hc : isWs c = true) : ¬((u ++ c :: w).take 7 = fenceJ) := by
  intro heq
  rcases u with _ | ⟨a, _ | ⟨b, _ | ⟨d, _ | ⟨e, _ | ⟨f, _ | ⟨g, _ | ⟨x, rest⟩⟩⟩⟩⟩⟩⟩
  · have h2 : c :: w.take 6 = fenceJ := heq
    simp [fenceJ, List.cons.injEq] at h2
    rw [h2.1] at hc
    exact absurd hc (by decide)
  · have h2 : a :: c :: w.take 5 = fenceJ := heq
    simp [fenceJ, List.cons.injEq] at h2
    rw [h2.2.1] at hc
    exact absurd hc (by decide)
  · have h2 : a :: b :: c :: w.take 4 = fenceJ := heq
    simp [fenceJ, List.cons.injEq] at h2
    rw [h2.2.2.1] at hc
    exact absurd hc (by decide)
  · have h2 : a :: b :: d :: c :: w.take 3 = fenceJ := heq
    simp [fenceJ, List.cons.injEq] at h2
    rw [h2.2.2.2.1] at hc
    exact absurd hc (by decide)
  · have h2 : a :: b :: d :: e :: c :: w.take 2 = fenceJ := heq
    simp [fenceJ, List.cons.injEq] at h2
    rw [h2.2.2.2.2.1] at hc
    exact absurd hc (by decide)
  · have h2 : a :: b :: d :: e :: f :: c :: w.take 1 = fenceJ := heq
    simp [fenceJ, List.cons.injEq] at h2
    rw [h2.2.2.2.2.2.1] at hc
    exact absurd hc (by decide)
  · have h2 : a :: b :: d :: e :: f :: g :: c :: w.take 0 = fenceJ := heq
    simp [fenceJ, List.cons.injEq] at h2
    rw [h2.2.2.2.2.2.2] at hc
    exact absurd hc (by decide)
  · simp at hu
    omega

/-- A plain-fence match cannot begin fewer than three characters before a
whitespace character. -/
theorem take3_ne_bq3_of_ws (u : List Char) (c : Char) (w : List Char)
    (hu : u.length < 3) (hc : isWs c = true) : ¬((u ++ c :: w).take 3 = bq3) := by
  intro heq
  rcases u with _ | ⟨a, _ | ⟨b, _ | ⟨d, rest⟩⟩⟩
  · have h2 : c :: w.take 2 = bq3 := heq
    simp [bq3, List.cons.injEq] at h2
    rw [h2.1] at hc
    exact absurd hc (by decide)
  · have h2 : a :: c :: w.take 1 = bq3 := heq
    simp [bq3, List.cons.injEq] at h2
    rw [h2.2.1] at hc
    exact absurd hc (by decide)
  · have h2 : a :: b :: c :: w.take 0 = bq3 := heq
    simp [bq3, List.cons.injEq] at h2
    rw [h2.2.2] at hc
    exact absurd hc (by decide)
  · simp at hu
    omega

/-- A whitespace character never begins a fence-json match. -/
theorem take7_ne_fenceJ_of_ws_head (c : Char) (l : List Char) (hc : isWs c = true) :
    ¬((c :: l).take 7 = fenceJ) := by
  have := take7_ne_fenceJ_of_ws [] c l (by simp) hc
  simpa using this

/-- A whitespace character never begins a plain-fence match. -/
theorem take3_ne_bq3_of_ws_head (c : Char) (l : List Char) (hc : isWs c = true) :
    ¬((c :: l).take 3 = bq3) := by
  have := take3_ne_bq3_of_ws [] c l (by simp) hc
  simpa using this

theorem repl1_cons_ws (c : Char) (l : List Char) (hc : isWs c = true) :
    repl1 (c :: l) = c :: repl1 l :=
  repl1_cons_neg c l (take7_ne_fenceJ_of_ws_head c l hc)

theorem repl2_cons_ws (c : Char) (l : List Char) (hc : isWs c = true) :
    repl2 (c :: l) = c :: repl2 l :=
  repl2_cons_neg c l (take3_ne_bq3_of_ws_head c l hc)

/-- Replacement of the json fence passes over an all-whitespace segment. -/
theorem repl1_ws_append (w z : List Char) (hw : ∀ c ∈ w, isWs c = true) :
    repl1 (w ++ z) = w ++ repl1 z := by
  induction w with
  | nil => simp
  | cons c w ih =>
    rw [List.cons_append, repl1_cons_ws c (w ++ z) (hw c (by simp)),
      ih (fun d hd => hw d (by simp [hd]))]
    rfl

/-- Replacement of the plain fence passes over an all-whitespace segment. -/
theorem repl2_ws_append (w z : List Char) (hw : ∀ c ∈ w, isWs c = true) :
    repl2 (w ++ z) = w ++ repl2 z := by
  induction w with
  | nil => simp
  | cons c w ih =>
    rw [List.cons_append, repl2_cons_ws c (w ++ z) (hw c (by simp)),
      ih (fun d hd => hw d (by simp [hd]))]
    rfl

theorem repl1_all_ws (w : List Char) (hw : ∀ c ∈ w, isWs c = true) : repl1 w = w := by
  have := repl1_ws_append w [] hw
  simpa [repl1_nil] using this

theorem dropNl_all_ws (w : List Char) (hw : ∀ c ∈ w, isWs c = true) :
    ∀ c ∈ dropNl w, isWs c = true := by
  cases w with
  | nil => simp [dropNl]
  | cons a r =>
    simp only [dropNl]
    split
    · exact fun c hc => hw c (by simp [hc])
    · exact hw

theorem dropWhile_append_all {α : Type} (p : α → Bool) (l₁ l₂ : List α)
    (h : ∀ a ∈ l₁, p a = true) :
    (l₁ ++ l₂).dropWhile p = l₂.dropWhile p := by
  induction l₁ with
  | nil => simp
  | cons a as ih =>
    rw [List.cons_append, List.dropWhile_cons_of_pos (h a (by simp))]
    exact ih (fun b hb => h b (by simp [hb]))

theorem dropWhile_append_of_ne_nil {α : Type} (p : α → Bool) (l₁ l₂ : List α)
    (h : l₁.dropWhile p ≠ []) :
    (l₁ ++ l₂).dropWhile p = l₁.dropWhile p ++ l₂ := by
  induction l₁ with
  | nil => simp at h
  | cons a as ih =>
    by_cases hp : p a = true
    · rw [List.dropWhile_cons_of_pos hp] at h
      rw [List.cons_append, List.dropWhile_cons_of_pos hp, List.dropWhile_cons_of_pos hp]
      exact ih h
    · rw [List.cons_append, List.dropWhile_cons_of_neg hp, List.dropWhile_cons_of_neg hp]
      simp

/-- Trimming on the right ignores an appended all-whitespace segment. -/
theorem trimR_append_ws (y w : List Char) (hw : ∀ c ∈ w, isWs c = true) :
    trimR (y ++ w) = trimR y := by
  unfold trimR
  rw [List.reverse_append, dropWhile_append_all isWs w.reverse y.reverse
    (fun c hc => hw c (by simpa using hc))]

/-- Trimming on the left ignores a prepended all-whitespace segment. -/
theorem trimL_ws_append (w y : List Char) (hw : ∀ c ∈ w, isWs c = true) :
    trimL (w ++ y) = trimL y := by
  unfold trimL
  exact dropWhile_append_all isWs w y hw

theorem trimL_all_ws (w : List Char) (hw : ∀ c ∈ w, isWs c = true) : trimL w = [] := by
  have := trimL_ws_append w [] hw
  simpa [trimL] using this

theorem trimR_nil : trimR [] = [] := rfl

/-- Full trimming ignores an appended all-whitespace segment. -/
theorem jsTrim_append_ws (y w : List Char) (hw : ∀ c ∈ w, isWs c = true) :
    jsTrim (y ++ w) = jsTrim y := by
  unfold jsTrim trimL
  by_cases hnil : y.dropWhile isWs = []
  · rw [dropWhile_append_all isWs y w (by
      intro a ha
      exact (List.dropWhile_eq_nil_iff).mp hnil a ha)]
    rw [hnil, List.dropWhile_eq_nil_iff.mpr hw]
  · rw [dropWhile_append_of_ne_nil isWs y w hnil, trimR_append_ws _ w hw]

/-- Full trimming ignores a prepended all-whitespace segment. -/
theorem jsTrim_ws_append (w y : List Char) (hw : ∀ c ∈ w, isWs c = true) :
    jsTrim (w ++ y) = jsTrim y := by
  unfold jsTrim
  rw [trimL_ws_append w y hw]

theorem repl1_bq3 : repl1 bq3 = bq3 := by
  rw [show bq3 = bq :: bq :: bq :: [] from rfl]
  rw [repl1_cons_neg _ _ (by decide), repl1_cons_neg _ _ (by decide),
    repl1_cons_neg _ _ (by decide), repl1_nil]

theorem repl1_nlBq3 : repl1 nlBq3 = nlBq3 := by
  rw [show nlBq3 = '\n' :: bq3 from rfl, repl1_cons_ws _ _ (by decide), repl1_bq3]

theorem repl2_bq3 : repl2 bq3 = [] := by
  rw [repl2_pos _ (by decide), show bq3.drop 3 = [] from rfl, dropNl_nil, repl2_nil]

theorem repl2_nlBq3 : repl2 nlBq3 = ['\n'] := by
  rw [show nlBq3 = '\n' :: bq3 from rfl, repl2_cons_ws _ _ (by decide), repl2_bq3]

/-- Scanning for the json fence past the end of a text: appending the
closing-fence suffix either leaves the scan untouched, or (when the text
ends in an unfinished json fence whose optional newline is supplied by the
suffix) swallows the newline and leaves a bare closing fence. -/
theorem repl1_app_nlBq3_aux : ∀ (n : Nat) (t : List Char), t.length ≤ n →
    repl1 (t ++ nlBq3) = repl1 t ++ nlBq3 ∨ repl1 (t ++ nlBq3) = repl1 t ++ bq3 := by
  intro n
  induction n with
  | zero =>
    intro t ht
    have ht0 : t = [] := List.eq_nil_of_length_eq_zero (by omega)
    subst ht0
    left
    rw [List.nil_append, repl1_nil, List.nil_append, repl1_nlBq3]
  | succ n ih =>
    intro t ht
    by_cases hf : t.take 7 = fenceJ
    · obtain ⟨t2, rfl, hlt⟩ : ∃ t2 : List Char, t = fenceJ ++ t2 ∧ t2.length ≤ n := by
        refine ⟨t.drop 7, ?_, ?_⟩
        · conv_lhs => rw [← List.take_append_drop 7 t]
          rw [hf]
        · have h7 : 7 ≤ t.length := by
            have hlf := congrArg List.length hf
            simp [fenceJ] at hlf
            omega
          simp
          omega
      rw [List.append_assoc, repl1_append_fenceJ, repl1_append_fenceJ]
      cases t2 with
      | nil =>
        right
        rw [List.nil_append, show nlBq3 = '\n' :: bq3 from rfl, dropNl_cons_nl,
          repl1_bq3, dropNl_nil, repl1_nil, List.nil_append]
      | cons d t3 =>
        by_cases hd : d = '\n'
        · subst hd
          rw [List.cons_append, dropNl_cons_nl, dropNl_cons_nl]
          exact ih t3 (by simp at hlt; omega)
        · rw [List.cons_append, dropNl_cons_of_ne _ hd, dropNl_cons_of_ne _ hd,
            ← List.cons_append]
          exact ih (d :: t3) hlt
    · cases t with
      | nil =>
        left
        rw [List.nil_append, repl1_nil, List.nil_append, repl1_nlBq3]
      | cons c cs =>
        have hf2 : ¬((c :: (cs ++ nlBq3)).take 7 = fenceJ) := by
          rw [← List.cons_append]
          by_cases hlen : 7 ≤ (c :: cs).length
          · rw [take_append_of_le_len 7 _ _ hlen]
            exact hf
          · rw [show ((c :: cs) ++ nlBq3) = ((c :: cs) ++ '\n' :: bq3) from rfl]
            exact take7_ne_fenceJ_of_ws (c :: cs) '\n' bq3 (by omega) (by decide)
        rw [List.cons_append, repl1_cons_neg c (cs ++ nlBq3) hf2, repl1_cons_neg c cs hf]
        rcases ih cs (by simp at ht; omega) with h | h
        · left
          rw [h, List.cons_append]
        · right
          rw [h, List.cons_append]

/-- Scanning for the plain fence past the end of a text whose suffix is a
newline and a closing fence: the fence is removed, and the newline either
survives as trailing whitespace or is swallowed by a fence that ends the
text. -/
theorem repl2_app_nlBq3_aux : ∀ (n : Nat) (x : List Char), x.length ≤ n →
    repl2 (x ++ nlBq3) = repl2 x ++ ['\n'] ∨ repl2 (x ++ nlBq3) = repl2 x := by
  intro n
  induction n with
  | zero =>
    intro x hx
    have hx0 : x = [] := List.eq_nil_of_length_eq_zero (by omega)
    subst hx0
    left
    rw [List.nil_append, repl2_nil, List.nil_append, repl2_nlBq3]
  | succ n ih =>
    intro x hx
    by_cases hf : x.take 3 = bq3
    · obtain ⟨x2, rfl, hlt⟩ : ∃ x2 : List Char, x = bq3 ++ x2 ∧ x2.length ≤ n := by
        refine ⟨x.drop 3, ?_, ?_⟩
        · conv_lhs => rw [← List.take_append_drop 3 x]
          rw [hf]
        · have h3 : 3 ≤ x.length := by
            have hlf := congrArg List.length hf
            simp [bq3] at hlf
            omega
          simp
          omega
      rw [List.append_assoc, repl2_append_bq3head, repl2_append_bq3head]
      cases x2 with
      | nil =>
        right
        rw [List.nil_append, show nlBq3 = '\n' :: bq3 from rfl, dropNl_cons_nl,
          repl2_bq3, dropNl_nil, repl2_nil]
      | cons d x3 =>
        by_cases hd : d = '\n'
        · subst hd
          rw [List.cons_append, dropNl_cons_nl, dropNl_cons_nl]
          exact ih x3 (by simp at hlt; omega)
        · rw [List.cons_append, dropNl_cons_of_ne _ hd, dropNl_cons_of_ne _ hd,
            ← List.cons_append]
          exact ih (d :: x3) hlt
    · cases x with
      | nil =>
        left
        rw [List.nil_append, repl2_nil, List.nil_append, repl2_nlBq3]
      | cons c cs =>
        have hf2 : ¬((c :: (cs ++ nlBq3)).take 3 = bq3) := by
          rw [← List.cons_append]
          by_cases hlen : 3 ≤ (c :: cs).length
          · rw [take_append_of_le_len 3 _ _ hlen]
            exact hf
          · rw [show ((c :: cs) ++ nlBq3) = ((c :: cs) ++ '\n' :: bq3) from rfl]
            exact take3_ne_bq3_of_ws (c :: cs) '\n' bq3 (by omega) (by decide)
        rw [List.cons_append, repl2_cons_neg c (cs ++ nlBq3) hf2, repl2_cons_neg c cs hf]
        rcases ih cs (by simp at hx; omega) with h | h
        · left
          rw [h, List.cons_append]
        · right
          rw [h]

theorem repl2_single_app_bq3 (c : Char) : repl2 ([c] ++ bq3) = repl2 [c] := by
  by_cases hc : c = bq
  · subst hc
    rw [show [bq] ++ bq3 = bq :: bq :: bq :: bq :: [] from rfl,
      repl2_pos _ (by decide), show (bq :: bq :: bq :: bq :: []).drop 3 = [bq] from rfl,
      dropNl_cons_of_ne _ (by decide)]
  · have hf2 : ¬((c :: bq3).take 3 = bq3) := by
      intro heq
      have h2 : c :: [bq, bq] = bq3 := heq
      simp [bq3] at h2
      exact hc h2
    rw [show [c] ++ bq3 = c :: bq3 from rfl, repl2_cons_neg c bq3 hf2, repl2_bq3,
      repl2_cons_neg c [] (by intro h; simpa [bq3] using congrArg List.length h), repl2_nil]

/-- Appending a bare closing fence to a text never changes the result of the
plain-fence scan: the appended fence is always removed, whether or not the
text ends with stray backticks. -/
theorem repl2_app_bq3_aux : ∀ (n : Nat) (x : List Char), x.length ≤ n →
    repl2 (x ++ bq3) = repl2 x := by
  intro n
  induction n with
  | zero =>
    intro x hx
    have hx0 : x = [] := List.eq_nil_of_length_eq_zero (by omega)
    subst hx0
    rw [List.nil_append, repl2_bq3, repl2_nil]
  | succ n ih =>
    intro x hx
    by_cases hf : x.take 3 = bq3
    · obtain ⟨x2, rfl, hlt⟩ : ∃ x2 : List Char, x = bq3 ++ x2 ∧ x2.length ≤ n := by
        refine ⟨x.drop 3, ?_, ?_⟩
        · conv_lhs => rw [← List.take_append_drop 3 x]
          rw [hf]
        · have h3 : 3 ≤ x.length := by
            have hlf := congrArg List.length hf
            simp [bq3] at hlf
            omega
          simp
          omega
      rw [List.append_assoc, repl2_append_bq3head, repl2_append_bq3head]
      cases x2 with
      | nil =>
        rw [List.nil_append, show bq3 = bq :: [bq, bq] from rfl,
          dropNl_cons_of_ne _ (by decide), ← show bq3 = bq :: [bq, bq] from rfl,
          repl2_bq3, dropNl_nil, repl2_nil]
      | cons d x3 =>
        by_cases hd : d = '\n'
        · subst hd
          rw [List.cons_append, dropNl_cons_nl, dropNl_cons_nl]
          exact ih x3 (by simp at hlt; omega)
        · rw [List.cons_append, dropNl_cons_of_ne _ hd, dropNl_cons_of_ne _ hd,
            ← List.cons_append]
          exact ih (d :: x3) hlt
    · cases x with
      | nil =>
        rw [List.nil_append, repl2_bq3, repl2_nil]
      | cons c cs =>
        by_cases hlen : 3 ≤ (c :: cs).length
        · have hf2 : ¬((c :: (cs ++ bq3)).take 3 = bq3) := by
            rw [← List.cons_append, take_append_of_le_len 3 _ _ hlen]
            exact hf
          rw [List.cons_append, repl2_cons_neg c (cs ++ bq3) hf2, repl2_cons_neg c cs hf,
            ih cs (by simp at hx; omega)]
        · rcases cs with _ | ⟨d, _ | ⟨e, cs3⟩⟩
          · exact repl2_single_app_bq3 c
          · by_cases hcd : c = bq ∧ d = bq
            · obtain ⟨rfl, rfl⟩ := hcd
              rw [show [bq, bq] ++ bq3 = bq :: bq :: bq :: bq :: bq :: [] from rfl,
                repl2_pos _ (by decide),
                show (bq :: bq :: bq :: bq :: bq :: []).drop 3 = [bq, bq] from rfl,
                dropNl_cons_of_ne _ (by decide)]
            · have hf2 : ¬((c :: d :: bq3).take 3 = bq3) := by
                intro heq
                have h2 : c :: d :: [bq] = bq3 := heq
                simp [bq3] at h2
                exact hcd ⟨h2.1, h2.2⟩
              have hf3 : ¬((c :: [d]).take 3 = bq3) := by
                intro h
                simpa [bq3] using congrArg List.length h
              rw [show [c, d] ++ bq3 = c :: ([d] ++ bq3) from rfl,
                repl2_cons_neg c ([d] ++ bq3) hf2, repl2_single_app_bq3 d,
                repl2_cons_neg c [d] hf3]
          · simp at hlen

/-- Scanning for the json fence over a text with an all-whitespace suffix:
the suffix survives, except that a fence ending exactly at the boundary may
swallow one leading newline of the suffix. -/
theorem repl1_app_ws_aux : ∀ (n : Nat) (u w : List Char), u.length ≤ n →
    (∀ c ∈ w, isWs c = true) →
    ∃ w2, (∀ c ∈ w2, isWs c = true) ∧ repl1 (u ++ w) = repl1 u ++ w2 := by
  intro n
  induction n with
  | zero =>
    intro u w hu hw
    have hu0 : u = [] := List.eq_nil_of_length_eq_zero (by omega)
    subst hu0
    exact ⟨w, hw, by rw [List.nil_append, repl1_all_ws w hw, repl1_nil, List.nil_append]⟩
  | succ n ih =>
    intro u w hu hw
    by_cases hf : u.take 7 = fenceJ
    · obtain ⟨u2, rfl, hlt⟩ : ∃ u2 : List Char, u = fenceJ ++ u2 ∧ u2.length ≤ n := by
        refine ⟨u.drop 7, ?_, ?_⟩
        · conv_lhs => rw [← List.take_append_drop 7 u]
          rw [hf]
        · have h7 : 7 ≤ u.length := by
            have hlf := congrArg List.length hf
            simp [fenceJ] at hlf
            omega
          simp
          omega
      rw [List.append_assoc, repl1_append_fenceJ, repl1_append_fenceJ]
      cases u2 with
      | nil =>
        refine ⟨dropNl w, dropNl_all_ws w hw, ?_⟩
        rw [List.nil_append, dropNl_nil, repl1_nil, List.nil_append,
          repl1_all_ws (dropNl w) (dropNl_all_ws w hw)]
      | cons d u3 =>
        by_cases hd : d = '\n'
        · subst hd
          rw [List.cons_append, dropNl_cons_nl, dropNl_cons_nl]
          exact ih u3 w (by simp at hlt; omega) hw
        · rw [List.cons_append, dropNl_cons_of_ne _ hd, dropNl_cons_of_ne _ hd,
            ← List.cons_append]
          exact ih (d :: u3) w hlt hw
    · cases u with
      | nil =>
        exact ⟨w, hw, by
          rw [List.nil_append, repl1_all_ws w hw, repl1_nil, List.nil_append]⟩
      | cons c cs =>
        have hf2 : ¬((c :: (cs ++ w)).take 7 = fenceJ) := by
          rw [← List.cons_append]
          by_cases hlen : 7 ≤ (c :: cs).length
          · rw [take_append_of_le_len 7 _ _ hlen]
            exact hf
          · cases w with
            | nil =>
              rw [List.append_nil]
              exact hf
            | cons a wr =>
              exact take7_ne_fenceJ_of_ws (c :: cs) a wr (by omega) (hw a (by simp))
        obtain ⟨w2, hw2, heq⟩ := ih cs w (by simp at hu; omega) hw
        refine ⟨w2, hw2, ?_⟩
        rw [List.cons_append, repl1_cons_neg c (cs ++ w) hf2, repl1_cons_neg c cs hf,
          heq, List.cons_append]

theorem repl2_all_ws (w : List Char) (hw : ∀ c ∈ w, isWs c = true) : repl2 w = w := by
  have := repl2_ws_append w [] hw
  simpa [repl2_nil] using this

/-- Scanning for the plain fence over a text with an all-whitespace suffix:
the suffix survives, except that a fence ending exactly at the boundary may
swallow one leading newline of the suffix. -/
theorem repl2_app_ws_aux : ∀ (n : Nat) (u w : List Char), u.length ≤ n →
    (∀ c ∈ w, isWs c = true) →
    ∃ w2, (∀ c ∈ w2, isWs c = true) ∧ repl2 (u ++ w) = repl2 u ++ w2 := by
  intro n
  induction n with
  | zero =>
    intro u w hu hw
    have hu0 : u = [] := List.eq_nil_of_length_eq_zero (by omega)
    subst hu0
    exact ⟨w, hw, by rw [List.nil_append, repl2_all_ws w hw, repl2_nil, List.nil_append]⟩
  | succ n ih =>
    intro u w hu hw
    by_cases hf : u.take 3 = bq3
    · obtain ⟨u2, rfl, hlt⟩ : ∃ u2 : List Char, u = bq3 ++ u2 ∧ u2.length ≤ n := by
        refine ⟨u.drop 3, ?_, ?_⟩
        · conv_lhs => rw [← List.take_append_drop 3 u]
          rw [hf]
        · have h3 : 3 ≤ u.length := by
            have hlf := congrArg List.length hf
            simp [bq3] at hlf
            omega
          simp
          omega
      rw [List.append_assoc, repl2_append_bq3head, repl2_append_bq3head]
      cases u2 with
      | nil =>
        refine ⟨dropNl w, dropNl_all_ws w hw, ?_⟩
        rw [List.nil_append, dropNl_nil, repl2_nil, List.nil_append,
          repl2_all_ws (dropNl w) (dropNl_all_ws w hw)]
      | cons d u3 =>
        by_cases hd : d = '\n'
        · subst hd
          rw [List.cons_append, dropNl_cons_nl, dropNl_cons_nl]
          exact ih u3 w (by simp at hlt; omega) hw
        · rw [List.cons_append, dropNl_cons_of_ne _ hd, dropNl_cons_of_ne _ hd,
            ← List.cons_append]
          exact ih (d :: u3) w hlt hw
    · cases u with
      | nil =>
        exact ⟨w, hw, by
          rw [List.nil_append, repl2_all_ws w hw, repl2_nil, List.nil_append]⟩
      | cons c cs =>
        have hf2 : ¬((c :: (cs ++ w)).take 3 = bq3) := by
          rw [← List.cons_append]
          by_cases hlen : 3 ≤ (c :: cs).length
          · rw [take_append_of_le_len 3 _ _ hlen]
            exact hf
          · cases w with
            | nil =>
              rw [List.append_nil]
              exact hf
            | cons a wr =>
              exact take3_ne_bq3_of_ws (c :: cs) a wr (by omega) (hw a (by simp))
        obtain ⟨w2, hw2, heq⟩ := ih cs w (by simp at hu; omega) hw
        refine ⟨w2, hw2, ?_⟩
        rw [List.cons_append, repl2_cons_neg c (cs ++ w) hf2, repl2_cons_neg c cs hf,
          heq, List.cons_append]

/-- Trimming the left end before scanning does not change the final cleaned
text: the scans pass whitespace through and the outer trim removes it. -/
theorem clean_core_trimL (x : List Char) :
    jsTrim (repl2 (repl1 (trimL x))) = jsTrim (repl2 (repl1 x)) := by
  have hx : x.takeWhile isWs ++ trimL x = x := by
    unfold trimL
    exact List.takeWhile_append_dropWhile isWs x
  have hall : ∀ c ∈ x.takeWhile isWs, isWs c = true := fun c hc =>
    List.mem_takeWhile_imp hc
  conv_rhs => rw [← hx]
  rw [repl1_ws_append _ _ hall, repl2_ws_append _ _ hall, jsTrim_ws_append _ _ hall]

/-- Trimming the right end before scanning does not change the final cleaned
text: the scans keep an all-whitespace suffix (possibly shortened by one
newline) and the outer trim removes it. -/
theorem clean_core_trimR (y : List Char) :
    jsTrim (repl2 (repl1 (trimR y))) = jsTrim (repl2 (repl1 y)) := by
  have hy : trimR y ++ (y.reverse.takeWhile isWs).reverse = y := by
    unfold trimR
    rw [← List.reverse_append, List.takeWhile_append_dropWhile, List.reverse_reverse]
  have hall : ∀ c ∈ (y.reverse.takeWhile isWs).reverse, isWs c = true := by
    intro c hc
    exact List.mem_takeWhile_imp (by simpa using hc)
  conv_rhs => rw [← hy]
  obtain ⟨w2, hw2, h1⟩ :=
    repl1_app_ws_aux (trimR y).length (trimR y) _ le_rfl hall
  rw [h1]
  obtain ⟨w3, hw3, h2⟩ :=
    repl2_app_ws_aux (repl1 (trimR y)).length (repl1 (trimR y)) w2 le_rfl hw2
  rw [h2, jsTrim_append_ws _ _ hw3]

/-- The initial trim of the cleaning pipeline is immaterial for the final
cleaned text. -/
theorem clean_core_jsTrim (t : List Char) :
    jsTrim (repl2 (repl1 (jsTrim t))) = jsTrim (repl2 (repl1 t)) := by
  rw [show jsTrim t = trimR (trimL t) from rfl, clean_core_trimR (trimL t),
    clean_core_trimL t]

theorem trimR_append_bq (x : List Char) : trimR (x ++ [bq]) = x ++ [bq] := by
  unfold trimR
  rw [List.reverse_append, show ([bq] : List Char).reverse = [bq] from rfl,
    show ([bq] : List Char) ++ x.reverse = bq :: x.reverse from rfl,
    List.dropWhile_cons_of_neg (by decide),
    show (bq :: x.reverse).reverse = x.reverse.reverse ++ [bq] from by
      rw [List.reverse_cons],
    List.reverse_reverse]

/-- A fence-wrapped completion has no surrounding whitespace to trim. -/
theorem jsTrim_wrapFence (t : List Char) : jsTrim (wrapFence t) = wrapFence t := by
  have hsplit : wrapFence t = (fenceJ ++ '\n' :: (t ++ ['\n', bq, bq])) ++ [bq] := by
    unfold wrapFence nlBq3 bq3
    simp
  have h1 : trimL (wrapFence t) = wrapFence t := by
    rw [show wrapFence t =
      bq :: ([bq, bq, 'j', 's', 'o', 'n'] ++ '\n' :: (t ++ nlBq3)) from rfl]
    unfold trimL
    rw [List.dropWhile_cons_of_neg (by decide)]
  rw [show jsTrim (wrapFence t) = trimR (trimL (wrapFence t)) from rfl, h1, hsplit,
    trimR_append_bq]

/-- Cleaning a fence-wrapped completion yields exactly the cleaned original:
the wrapper markers and the newlines they bring are entirely stripped. -/
theorem cleanResp_wrapFence (t : List Char) : cleanResp (wrapFence t) = cleanResp t := by
  unfold cleanResp
  rw [jsTrim_wrapFence]
  have h1 : repl1 (wrapFence t) = repl1 (t ++ nlBq3) := by
    unfold wrapFence
    rw [repl1_append_fenceJ, dropNl_cons_nl]
  rw [h1]
  rcases repl1_app_nlBq3_aux t.length t le_rfl with h | h
  · rw [h]
    rcases repl2_app_nlBq3_aux (repl1 t).length (repl1 t) le_rfl with h2 | h2
    · rw [h2, jsTrim_append_ws _ ['\n'] (by decide), clean_core_jsTrim t]
    · rw [h2, clean_core_jsTrim t]
  · rw [h, repl2_app_bq3_aux (repl1 t).length (repl1 t) le_rfl, clean_core_jsTrim t]

/-- A payload with every field absent. -/
def emptyPayload : Payload :=
  ⟨none, none, none, none, none, none, none, none, none, none⟩

/-- A payload carrying only a name: the scientific name is absent. -/
def nameOnlyPayload : Payload := { emptyPayload with name := some "Monstera Deliciosa" }

/-- A payload with an empty-string error field and both required fields. -/
def payloadEmptyError : Payload :=
  { emptyPayload with
    error := some ""
    name := some "Monstera Deliciosa"
    scientificName := some "Monstera deliciosa" }

/-- A complete result payload with the optional fields absent. -/
def bareResultPayload : Payload :=
  { emptyPayload with
    name := some "Monstera Deliciosa"
    scientificName := some "Monstera deliciosa" }

/-- A payload with only an empty error field. -/
def emptyErrOnlyPayload : Payload := { emptyPayload with error := some "" }

/-- The scenario-C payload: only the domain error message. -/
def scenarioCPayload : Payload := { emptyPayload with error := some cannotIdentifyMsg }

/-- An environment whose completion decodes to the scenario-C payload. -/
def scenarioCEnv : UpstreamEnv :=
  { encodeError := none
    responseOk := true
    responseStatus := 200
    upstreamErrMsg := none
    completionText := some ['x']
    decode := fun _ => some scenarioCPayload }

/-- An environment answering HTTP 429 with a quota message. -/
def env429 : UpstreamEnv :=
  { encodeError := none
    responseOk := false
    responseStatus := 429
    upstreamErrMsg := some "Resource has been exhausted (e.g. check quota)."
    completionText := none
    decode := fun _ => none }

/-- Every settled attempt ends in exactly one of two shapes: an error
message stored with loading cleared, or a result stored with loading
cleared. -/
theorem settle_shape (k : Option String) (env : UpstreamEnv) (s : ViewState) :
    (∃ m, settleIdentify k env s = { s with error := some m, loading := false }) ∨
    (∃ p, settleIdentify k env s = { s with plantInfo := some p, loading := false }) := by
  unfold settleIdentify setFailed
  split
  · exact Or.inl ⟨_, rfl⟩
  · split
    · exact Or.inl ⟨_, rfl⟩
    · split
      · exact Or.inl ⟨_, rfl⟩
      · split
        · exact Or.inl ⟨_, rfl⟩
        · split
          · exact Or.inl ⟨_, rfl⟩
          · split
            · exact Or.inl ⟨_, rfl⟩
            · exact Or.inl ⟨_, rfl⟩
            · exact Or.inl ⟨_, rfl⟩
            · exact Or.inr ⟨_, rfl⟩

/-- C1 (counterexample): a decoded payload with no error field that carries
a name but no scientific name is rejected with the incomplete-data error,
although the claim says any payload with at least one of the two fields is
returned as a validated result. -/
theorem c1_counterexample :
    parsePayload nameOnlyPayload = ParseOutcome.incompleteData ∧
    nameOnlyPayload.error = none ∧ strTruthy nameOnlyPayload.name = true ∧
    nameOnlyPayload.scientificName = none := by
  refine ⟨?_, rfl, rfl, rfl⟩
  decide

/-- C1 (amended): for every decoded payload with no truthy error field, the
parse fails with the incomplete-data error exactly when the name or the
scientific name is missing or empty, and returns the payload as a validated
result exactly when both are present and non-empty. -/
theorem c1_parser_completeness (p : Payload) (h : strTruthy p.error = false) :
    (parsePayload p = ParseOutcome.incompleteData ↔
      (strTruthy p.name = false ∨ strTruthy p.scientificName = false)) ∧
    (parsePayload p = ParseOutcome.ok p ↔
      (strTruthy p.name = true ∧ strTruthy p.scientificName = true)) := by
  unfold parsePayload
  rw [h]
  cases hn : strTruthy p.name <;> cases hs : strTruthy p.scientificName <;> simp

/-- Witness for C1: a complete payload is accepted, matching the amended
equivalence at a concrete input. -/
theorem c1_witness :
    strTruthy bareResultPayload.error = false ∧
    (parsePayload bareResultPayload = ParseOutcome.ok bareResultPayload ↔
      (strTruthy bareResultPayload.name = true ∧
        strTruthy bareResultPayload.scientificName = true)) := by
  exact ⟨rfl, (c1_parser_completeness bareResultPayload rfl).2⟩

/-- C2: for every decoded payload with no error field in which the name or
the scientific name is missing, the parse fails with the incomplete-data
error and never returns a result. -/
theorem c2_missing_field_incomplete (p : Payload) (herr : p.error = none)
    (hmiss : p.name = none ∨ p.scientificName = none) :
    parsePayload p = ParseOutcome.incompleteData := by
  unfold parsePayload
  rw [herr]
  rcases hmiss with h | h <;> rw [h] <;> simp [strTruthy]

/-- Witness for C2: the all-absent payload is rejected as incomplete. -/
theorem c2_witness : parsePayload emptyPayload = ParseOutcome.incompleteData :=
  c2_missing_field_incomplete emptyPayload rfl (Or.inl rfl)

/-- C3 (counterexample): a decoded payload that contains an error field
holding the empty string is not surfaced as a failure at all; with both
required fields present it is returned as a result, contradicting the claim
that every payload containing an error field yields the Failed state and no
result. -/
theorem c3_counterexample :
    payloadEmptyError.error = some "" ∧
    parsePayload payloadEmptyError = ParseOutcome.ok payloadEmptyError := by
  refine ⟨rfl, ?_⟩
  decide

/-- C3 (amended): for every decoded payload whose error field is present
and non-empty, the attempt settles in the Failed state carrying exactly the
payload's error message, with no prefix added, the result slot unchanged
and loading cleared; the scenario-C completion is the witness below. -/
theorem c3_domain_error_surfaced (k : Option String) (env : UpstreamEnv) (s : ViewState)
    (txt : List Char) (p : Payload) (msg : String)
    (hk : keyMissing k = false) (henc : env.encodeError = none)
    (hok : env.responseOk = true) (htxt : env.completionText = some txt)
    (hne : txt.isEmpty = false) (hdec : env.decode (cleanResp txt) = some p)
    (herr : p.error = some msg) (hmsg : (msg == "") = false) :
    (runIdentify k env s).1.error = some msg ∧
    (runIdentify k env s).1.plantInfo = s.plantInfo ∧
    (runIdentify k env s).1.loading = false := by
  unfold runIdentify settleIdentify startIdentify parseCompletion parsePayload
  simp [hk, henc, hok, htxt, hne, hdec, herr, strTruthy, hmsg]

/-- Witness for C3: the scenario-C completion yields the Failed state with
exactly the declared message. -/
theorem c3_witness :
    (runIdentify (some "key") scenarioCEnv initState).1.error = some cannotIdentifyMsg ∧
    (runIdentify (some "key") scenarioCEnv initState).1.plantInfo = none ∧
    (runIdentify (some "key") scenarioCEnv initState).1.loading = false ∧
    cannotIdentifyMsg =
      "Could not identify plant. Please upload a clearer image of a plant." := by
  obtain ⟨h1, h2, h3⟩ :=
    c3_domain_error_surfaced (some "key") scenarioCEnv initState ['x'] scenarioCPayload
      cannotIdentifyMsg rfl rfl rfl rfl rfl rfl rfl (by decide)
  exact ⟨h1, h2, h3, rfl⟩

/-- C4: an attempt made while the credential is absent or empty fails with
the configuration error message at once, and the network is not reached. -/
theorem c4_missing_key_no_network (k : Option String) (env : UpstreamEnv) (s : ViewState)
    (hk : keyMissing k = true) :
    (runIdentify k env s).2 = false ∧
    (runIdentify k env s).1.error = some (failMsg configMsg) ∧
    (runIdentify k env s).1.loading = false := by
  unfold runIdentify settleIdentify networkCalled setFailed startIdentify
  rw [hk]
  simp

/-- Witness for C4: with no credential configured, any attempt fails with
the configuration message and no network call. -/
theorem c4_witness :
    (runIdentify none scenarioCEnv initState).2 = false ∧
    (runIdentify none scenarioCEnv initState).1.error = some (failMsg configMsg) ∧
    (runIdentify none scenarioCEnv initState).1.loading = false :=
  c4_missing_key_no_network none scenarioCEnv initState rfl

/-- C5: a non-success HTTP response settles the attempt in the Failed state
with the upstream error message carrying the numeric status code and the
upstream-supplied detail, after the (single) network call was made. -/
theorem c5_upstream_error (k : Option String) (env : UpstreamEnv) (s : ViewState)
    (hk : keyMissing k = false) (henc : env.encodeError = none)
    (hok : env.responseOk = false) :
    (runIdentify k env s).1.error =
      some (failMsg (upstreamFailMsg env.responseStatus env.upstreamErrMsg)) ∧
    (runIdentify k env s).1.loading = false ∧
    (runIdentify k env s).2 = true := by
  unfold runIdentify settleIdentify networkCalled setFailed startIdentify
  rw [hk, henc, hok]
  simp

/-- Witness for C5: an HTTP 429 answer yields the Failed state whose message
contains the status 429 and the upstream detail. -/
theorem c5_witness :
    (runIdentify (some "key") env429 initState).1.error =
      some ("Failed to identify plant: API request failed with status 429: " ++
        "Resource has been exhausted (e.g. check quota).") ∧
    (runIdentify (some "key") env429 initState).1.loading = false ∧
    (runIdentify (some "key") env429 initState).2 = true := by
  obtain ⟨h1, h2, h3⟩ := c5_upstream_error (some "key") env429 initState rfl rfl rfl
  refine ⟨?_, h2, h3⟩
  rw [h1]
  rfl

/-- C6: parsing a fence-wrapped completion gives the same outcome as parsing
the unwrapped completion, for every completion text and every decoder: the
cleaning step strips the markers and the surrounding whitespace. -/
theorem c6_fence_wrap_invariant (decode : List Char → Option Payload) (t : List Char) :
    parseCompletion decode (wrapFence t) = parseCompletion decode t ∧
    cleanResp (wrapFence t) = cleanResp t := by
  refine ⟨?_, cleanResp_wrapFence t⟩
  unfold parseCompletion
  rw [cleanResp_wrapFence]

/-- C7: a valid payload with both required fields defaults its optional
fields: absent toxicity shows no safety note, absent confidence omits the
confidence indicator. -/
theorem c7_optional_defaults (p : Payload) (h : parsePayload p = ParseOutcome.ok p) :
    (p.toxicity = none → showSafetyNote p = false) ∧
    (p.confidence = none → showConfidence p = false) := by
  refine ⟨?_, ?_⟩
  · intro ht
    unfold showSafetyNote
    rw [ht]
    rfl
  · intro hc
    unfold showConfidence
    rw [hc]
    rfl

/-- Witness for C7: the bare valid payload is accepted and renders neither
the safety note nor the confidence indicator. -/
theorem c7_witness :
    parsePayload bareResultPayload = ParseOutcome.ok bareResultPayload ∧
    showSafetyNote bareResultPayload = false ∧
    showConfidence bareResultPayload = false := by
  have h : parsePayload bareResultPayload = ParseOutcome.ok bareResultPayload := by decide
  obtain ⟨h1, h2⟩ := c7_optional_defaults bareResultPayload h
  exact ⟨h, h1 rfl, h2 rfl⟩

/-- An environment whose attempt succeeds with the bare result payload. -/
def envOkBare : UpstreamEnv :=
  { encodeError := none
    responseOk := true
    responseStatus := 200
    upstreamErrMsg := none
    completionText := some ['x']
    decode := fun _ => some bareResultPayload }

/-- The state left behind by the race: select an image, reset while its
attempt is in flight, select a second image, let the second attempt succeed,
then let the stale first attempt fail: its catch stores an error while the
result of the second attempt is still held. -/
def raceViolationState : ViewState :=
  { selectedImage := some "img2"
    imagePreview := none
    plantInfo := some bareResultPayload
    loading := false
    error := some (failMsg (upstreamFailMsg env429.responseStatus env429.upstreamErrMsg)) }

/-- C8 (counterexample): the mutual exclusion does not hold in every
reachable state.  The source neither cancels a superseded attempt nor
ignores its late completion, so the interleaving select, reset during
flight, re-select, new attempt succeeds, stale attempt fails reaches a
state holding a non-null error and a non-null result at once. -/
theorem c8_counterexample :
    Reachable raceViolationState ∧
    raceViolationState.error ≠ none ∧ raceViolationState.plantInfo ≠ none ∧
    ¬ MutexInv raceViolationState := by
  refine ⟨⟨[], ?_⟩, by decide, by decide, ?_⟩
  · have h1 := ReachConfig.init
    have h2 := ReachConfig.selectStart "img1" (some "key") env429 h1
    have h3 := ReachConfig.reset h2
    have h4 := ReachConfig.selectStart "img2" (some "key") envOkBare h3
    have h5 := ReachConfig.settle [] [((some "key" : Option String), env429)]
      (some "key") envOkBare h4
    have h6 := ReachConfig.settle [] [] (some "key") env429 h5
    exact h6
  · intro h
    exact (by decide : ¬(raceViolationState.plantInfo = none))
      (h.2 (by decide : raceViolationState.error ≠ none))

/-- C8 (amended): under the serialized regime the spec prescribes, where
each identification attempt settles before the next operation, every
reachable view-controller state holds at most one of loading, error and
result: loading excludes both, and an error excludes a result. -/
theorem c8_serialized_mutex (s : ViewState) (h : ReachableSerial s) : MutexInv s := by
  induction h with
  | init => exact ⟨(fun h2 => nomatch h2), (fun h2 => absurd rfl h2)⟩
  | reset hr ih => exact ⟨(fun _ => ⟨rfl, rfl⟩), (fun _ => rfl)⟩
  | previewLoaded pv hr ih => exact ih
  | selectMid img hr ih => exact ⟨(fun _ => ⟨rfl, rfl⟩), (fun _ => rfl)⟩
  | @selectSettled s img k env hr ih =>
    rcases settle_shape k env (startIdentify (selectImage img s)) with ⟨m, hm⟩ | ⟨p, hp⟩
    · rw [hm]
      exact ⟨(fun h2 => nomatch h2), (fun _ => rfl)⟩
    · rw [hp]
      exact ⟨(fun h2 => nomatch h2), (fun h2 => absurd rfl h2)⟩
  | retryMid hr hl he ih =>
    exact ⟨(fun _ => ⟨rfl, ih.2 he⟩), (fun _ => ih.2 he)⟩
  | @retrySettled s k env hr hl he ih =>
    rcases settle_shape k env (startIdentify s) with ⟨m, hm⟩ | ⟨p, hp⟩
    · rw [hm]
      exact ⟨(fun h2 => nomatch h2), (fun _ => ih.2 he)⟩
    · rw [hp]
      exact ⟨(fun h2 => nomatch h2), (fun h2 => absurd rfl h2)⟩

/-- Witness for C8: a full serialized select-and-settle attempt lands in a
state satisfying the mutual exclusion. -/
theorem c8_witness :
    MutexInv (settleIdentify (some "key") envOkBare
      (startIdentify (selectImage "img" initState))) :=
  c8_serialized_mutex _
    (ReachableSerial.selectSettled "img" (some "key") envOkBare ReachableSerial.init)

/-- C9 (counterexample): reset is not a constant transition onto the empty
state: applied while an attempt is loading it leaves the loading flag set,
so its result differs from the pristine empty state and from a reset taken
from the empty state; the offending state is reachable (select an image,
then press reset while the attempt is in flight). -/
theorem c9_counterexample :
    resetUpload { initState with loading := true } ≠ initState ∧
    resetUpload { initState with loading := true } ≠ resetUpload initState ∧
    Reachable { initState with loading := true } := by
  refine ⟨by decide, by decide, ?_⟩
  exact ⟨[((some "key" : Option String), env429)],
    ReachConfig.reset (ReachConfig.selectStart "img" (some "key") env429 ReachConfig.init)⟩

/-- C9 (amended): reset always clears the selected image, the preview, the
result and the error, and is idempotent; the loading flag alone is left
unchanged. -/
theorem c9_reset_clears (s : ViewState) :
    (resetUpload s).selectedImage = none ∧ (resetUpload s).imagePreview = none ∧
    (resetUpload s).plantInfo = none ∧ (resetUpload s).error = none ∧
    (resetUpload s).loading = s.loading ∧
    resetUpload (resetUpload s) = resetUpload s :=
  ⟨rfl, rfl, rfl, rfl, rfl, rfl⟩

/-- C10: an error field holding the empty string is falsy and therefore
ignored: the domain-error branch is never taken, and the attempt falls
through to the name and scientific-name completeness check. -/
theorem c10_empty_error_ignored (p : Payload) (h : p.error = some "") :
    (∀ m : String, parsePayload p ≠ ParseOutcome.domainError m) ∧
    (strTruthy p.name = false ∨ strTruthy p.scientificName = false →
      parsePayload p = ParseOutcome.incompleteData) ∧
    (strTruthy p.name = true → strTruthy p.scientificName = true →
      parsePayload p = ParseOutcome.ok p) := by
  have htr : strTruthy p.error = false := by rw [h]; rfl
  unfold parsePayload
  rw [htr]
  refine ⟨?_, ?_, ?_⟩
  · intro m
    cases hn : strTruthy p.name <;> cases hs : strTruthy p.scientificName <;> simp [hn, hs]
  · intro hor
    rcases hor with h2 | h2 <;> simp [h2]
  · intro hn hs
    simp [hn, hs]

/-- Witness for C10: the payload holding only an empty error string falls
through to the completeness check and is not a domain error. -/
theorem c10_witness :
    parsePayload emptyErrOnlyPayload = ParseOutcome.incompleteData ∧
    parsePayload emptyErrOnlyPayload ≠ ParseOutcome.domainError "" := by
  obtain ⟨h1, h2, _⟩ := c10_empty_error_ignored emptyErrOnlyPayload rfl
  exact ⟨h2 (Or.inl rfl), h1 ""⟩
